import Mathlib

/-!
Verification of the smart-buffer byte store.

The repository ships only the test suite, the type declarations and the
changelogs; the core implementation file (smartbuffer.ts / utils.ts) is not
present.  The data model and every operation below are therefore modelled
from the specification document (spec.md), faithful to its words, and the
claims are settled against that model.  Bytes are natural numbers, the
backing array is a list of bytes whose length is the physical capacity,
and operations are explicit state transformers that carry the store state
also on the error path (a thrown exception in the original leaves the
object in the state it had at the throw site).
-/

namespace SmartBuffer

/-- Modelled from the spec: the supported text encodings of §3 (the concrete
byte-level encoder and decoder for text are platform primitives absent from
the repository; only membership in the supported set matters here). -/
inductive Encoding where
  | utf8
  | ascii
  | utf16le
  | latin1
  | base64
  | hex
deriving DecidableEq, Repr

/-- Modelled from the spec: the error kinds of §7 (the implementation's
exception classes are missing from src/, so errors are modelled as the
spec's taxonomy: InvalidArgument, OutOfBounds(read), OutOfBounds(cursor),
and the two UnsupportedCapability flavours of §4.3, the second naming the
specific missing platform primitive). -/
inductive SBError where
  | invalidArgument
  | outOfBoundsRead
  | outOfBoundsCursor
  | unsupportedType
  | unsupportedMethod (method : String)
deriving DecidableEq, Repr

/-- Modelled from the spec: a JavaScript number argument as the validation
utilities of §4.5 see it: either an actual integer, or a value that is not
a finite integer (NaN, an infinity, or a fractional number). -/
inductive JSNum where
  | int (n : Int)
  | bad
deriving DecidableEq, Repr

/-- Modelled from the spec: the ByteStore entity of §3.  The backing array
is buff (capacity = its length), with logical length, the two cursors and
the selected encoding. -/
structure ByteStore where
  buff : List Nat
  length : Nat
  readOffset : Nat
  writeOffset : Nat
  encoding : Encoding
deriving DecidableEq, Repr

/-- Physical capacity of the store: the allocated size of the backing
array. -/
def capacity (s : ByteStore) : Nat := s.buff.length

/-- Result of a stateful operation: success with a value and the new state,
or an error together with the state at the moment of the throw (the
original object survives an exception, so the error carries the state the
store has afterwards). -/
inductive EResult (α : Type) where
  | ok (value : α) (s : ByteStore)
  | err (e : SBError) (s : ByteStore)
deriving DecidableEq, Repr

/-! ### Byte-range primitives on the backing array -/

/-- Read k bytes of the backing array starting at offset o (truncated at
the physical end, which never happens on validated calls). -/
def readBytesAt (b : List Nat) (o k : Nat) : List Nat := (b.drop o).take k

/-- Overwrite the bytes of b at offsets [o, o + d.length) with d, leaving
the rest unchanged (the Buffer.copy / write primitive of the platform). -/
def setBytes (b : List Nat) (o : Nat) (d : List Nat) : List Nat :=
  b.take o ++ d ++ b.drop (o + d.length)

/-! ### Validation utilities (§4.5) -/

/-- Modelled from the spec: the integer-and-finite check of §4.5 (the
utils.ts source is absent from src/; the test suite pins its behaviour on
10, NaN and 10.1). -/
def isFiniteInteger : JSNum → Bool
  | .int _ => true
  | .bad => false

/-- Modelled from the spec: the guard of §4.5 rejecting an offset argument
that is not a finite non-negative integer, with the InvalidArgument error
kind of §7. -/
def checkOffsetValue : JSNum → Except SBError Nat
  | .int n => if n < 0 then .error .invalidArgument else .ok n.toNat
  | .bad => .error .invalidArgument

/-- Modelled from the spec: the guard of §4.5 rejecting a length argument
that is not a finite non-negative integer. -/
def checkLengthValue : JSNum → Except SBError Nat
  | .int n => if n < 0 then .error .invalidArgument else .ok n.toNat
  | .bad => .error .invalidArgument

/-- Modelled from the spec: the encoding-membership check of §4.5 over the
platform's accepted encoding names. -/
def checkEncoding (e : String) : Except SBError Encoding :=
  if e = "utf8" ∨ e = "utf-8" then .ok .utf8
  else if e = "ascii" then .ok .ascii
  else if e = "utf16le" ∨ e = "utf-16le" ∨ e = "ucs2" ∨ e = "ucs-2" then .ok .utf16le
  else if e = "latin1" ∨ e = "binary" then .ok .latin1
  else if e = "base64" then .ok .base64
  else if e = "hex" then .ok .hex
  else .error .invalidArgument

/-! ### Capacity manager (§4.1) -/

/-- Modelled from the spec: the growth policy of §4.1 — candidate size is
capacity * 1.5 + 1 rounded down; if the candidate is still below the
required minimum, the minimum itself is used (exact-fit fallback). -/
def growSize (cap minLength : Nat) : Nat :=
  let candidate := cap * 3 / 2 + 1
  if candidate < minLength then minLength else candidate

/-- Modelled from the spec: ensureCapacity of §4.1 — reallocates, copying
the meaningful bytes [0, length), only when the current capacity is below
minLength; the fresh tail of the new allocation is left as zero bytes
here (the original leaves it unspecified, and no operation reads it before
writing it). -/
def ensureCapacity (s : ByteStore) (minLength : Nat) : ByteStore :=
  if s.buff.length < minLength then
    let newCap := growSize s.buff.length minLength
    { s with buff := s.buff.take s.length ++ List.replicate (newCap - s.length) 0 }
  else s

/-- Modelled from the spec: ensureWriteable of §4.1 — the true requirement
is offset + minLength, with the offset defaulting to the current write
cursor. -/
def ensureWriteable (s : ByteStore) (minLength : Nat) (offset : Option Nat) : ByteStore :=
  ensureCapacity s ((offset.getD s.writeOffset) + minLength)

/-! ### Raw write and insert cores (§4.3 and §4.4)

Every typed write delegates to one of the three cores below after encoding
its value to bytes. -/

/-- Modelled from the spec: the cursor write path of §4.3 — ensure capacity
for the data at the write cursor, store the bytes there, advance the write
cursor by their size and extend the logical length to cover the write. -/
def writeCore (s : ByteStore) (data : List Nat) : ByteStore :=
  let s1 := ensureWriteable s data.length none
  let wo := s1.writeOffset + data.length
  { s1 with buff := setBytes s1.buff s1.writeOffset data
          , writeOffset := wo
          , length := max s1.length wo }

/-- Modelled from the spec: the explicit-offset write path of §4.3 — writes
at the given absolute position without moving the write cursor, extending
the logical length only when the written range exceeds it. -/
def writeAtCore (s : ByteStore) (offset : Nat) (data : List Nat) : ByteStore :=
  let s1 := ensureWriteable s data.length (some offset)
  { s1 with buff := setBytes s1.buff offset data
          , length := max s1.length (offset + data.length) }

/-- Modelled from the spec: the insert path of §4.3 — grows capacity for
length + size, shifts the bytes [offset, length) right by the size of the
data, writes the data at offset, and increases both the logical length and
the write cursor by that size. -/
def insertCore (s : ByteStore) (offset : Nat) (data : List Nat) : ByteStore :=
  let s1 := ensureCapacity s (s.length + data.length)
  let shifted := setBytes s1.buff (offset + data.length)
      (readBytesAt s1.buff offset (s1.length - offset))
  { s1 with buff := setBytes shifted offset data
          , length := s1.length + data.length
          , writeOffset := s1.writeOffset + data.length }

/-! ### Cursor manager (§4.2) -/

/-- Remaining unread data: length − readOffset (§4.2). -/
def remaining (s : ByteStore) : Nat := s.length - s.readOffset

/-- Modelled from the spec: assignment to the readOffset property (§4.2) —
fails with an out-of-bounds cursor error unless 0 ≤ v ≤ length; a value
that is not a finite integer is rejected by the §4.5 guard. -/
def setReadOffset (s : ByteStore) (v : JSNum) : EResult Unit :=
  match v with
  | .bad => .err .invalidArgument s
  | .int n =>
      if 0 ≤ n ∧ n ≤ (s.length : Int) then .ok () { s with readOffset := n.toNat }
      else .err .outOfBoundsCursor s

/-- Modelled from the spec: assignment to the writeOffset property (§4.2) —
fails with an out-of-bounds cursor error unless 0 ≤ v ≤ capacity. -/
def setWriteOffset (s : ByteStore) (v : JSNum) : EResult Unit :=
  match v with
  | .bad => .err .invalidArgument s
  | .int n =>
      if 0 ≤ n ∧ n ≤ (capacity s : Int) then .ok () { s with writeOffset := n.toNat }
      else .err .outOfBoundsCursor s

/-! ### Numeric byte codecs (§4.3)

Little-endian base-256 serialization; big-endian is its reversal.  Signed
integers use two's complement; the two float widths are carried at the bit
pattern level, because the translation between an IEEE bit pattern and the
real number it denotes is a platform primitive, while the store itself only
moves the pattern's bytes.  A representable float value corresponds to
exactly one pattern, so pattern round-trip is value round-trip. -/

/-- Little-endian k-byte serialization of a natural number (mod 256^k). -/
def toBytesLE : Nat → Nat → List Nat
  | 0, _ => []
  | k + 1, n => n % 256 :: toBytesLE k (n / 256)

/-- Little-endian deserialization. -/
def fromBytesLE : List Nat → Nat
  | [] => 0
  | b :: bs => b + 256 * fromBytesLE bs

/-- Big-endian k-byte serialization. -/
def toBytesBE (k n : Nat) : List Nat := (toBytesLE k n).reverse

/-- Big-endian deserialization. -/
def fromBytesBE (bs : List Nat) : Nat := fromBytesLE bs.reverse

/-- A fixed-width numeric codec: size in bytes, encoder and decoder between
values and byte ranges, and the representable value range. -/
structure NumCodec where
  byteSize : Nat
  enc : Int → List Nat
  dec : List Nat → Int
  lo : Int
  hi : Int

/-- Modelled from the spec: the unsigned little-endian integer codecs of
§4.3 (uint8, uint16, uint32, uint64 and the float bit patterns). -/
def uintCodecLE (k : Nat) : NumCodec :=
  { byteSize := k
  , enc := fun v => toBytesLE k v.toNat
  , dec := fun bs => (fromBytesLE bs : Int)
  , lo := 0
  , hi := (256 ^ k : Nat) }

/-- Modelled from the spec: the unsigned big-endian integer codecs of §4.3. -/
def uintCodecBE (k : Nat) : NumCodec :=
  { byteSize := k
  , enc := fun v => toBytesBE k v.toNat
  , dec := fun bs => (fromBytesBE bs : Int)
  , lo := 0
  , hi := (256 ^ k : Nat) }

/-- Modelled from the spec: the signed little-endian integer codecs of §4.3
(two's complement). -/
def intCodecLE (k : Nat) : NumCodec :=
  { byteSize := k
  , enc := fun v => toBytesLE k (v.emod (256 ^ k : Nat)).toNat
  , dec := fun bs =>
      let u : Int := fromBytesLE bs
      if (256 ^ k : Nat) / 2 ≤ u then u - (256 ^ k : Nat) else u
  , lo := -((256 ^ k : Nat) / 2 : Nat)
  , hi := ((256 ^ k : Nat) / 2 : Nat) }

/-- Modelled from the spec: the signed big-endian integer codecs of §4.3. -/
def intCodecBE (k : Nat) : NumCodec :=
  { byteSize := k
  , enc := fun v => toBytesBE k (v.emod (256 ^ k : Nat)).toNat
  , dec := fun bs =>
      let u : Int := fromBytesBE bs
      if (256 ^ k : Nat) / 2 ≤ u then u - (256 ^ k : Nat) else u
  , lo := -((256 ^ k : Nat) / 2 : Nat)
  , hi := ((256 ^ k : Nat) / 2 : Nat) }

def int8Codec : NumCodec := intCodecLE 1
def uint8Codec : NumCodec := uintCodecLE 1
def int16LECodec : NumCodec := intCodecLE 2
def int16BECodec : NumCodec := intCodecBE 2
def uint16LECodec : NumCodec := uintCodecLE 2
def uint16BECodec : NumCodec := uintCodecBE 2
def int32LECodec : NumCodec := intCodecLE 4
def int32BECodec : NumCodec := intCodecBE 4
def uint32LECodec : NumCodec := uintCodecLE 4
def uint32BECodec : NumCodec := uintCodecBE 4
def int64LECodec : NumCodec := intCodecLE 8
def int64BECodec : NumCodec := intCodecBE 8
def uint64LECodec : NumCodec := uintCodecLE 8
def uint64BECodec : NumCodec := uintCodecBE 8

/-- Float32 codec, at bit-pattern level: the store moves the four pattern
bytes; the IEEE interpretation of the pattern is the platform's. -/
def float32LECodec : NumCodec := uintCodecLE 4
def float32BECodec : NumCodec := uintCodecBE 4

/-- Float64 codec at bit-pattern level. -/
def float64LECodec : NumCodec := uintCodecLE 8
def float64BECodec : NumCodec := uintCodecBE 8

/-- Every numeric codec of §4.3: the ten types, with both endiannesses for
the multi-byte widths. -/
def codecList : List NumCodec :=
  [ int8Codec, uint8Codec
  , int16LECodec, int16BECodec, uint16LECodec, uint16BECodec
  , int32LECodec, int32BECodec, uint32LECodec, uint32BECodec
  , int64LECodec, int64BECodec, uint64LECodec, uint64BECodec
  , float32LECodec, float32BECodec, float64LECodec, float64BECodec ]

/-! ### Numeric operations (§4.3) -/

/-- Modelled from the spec: the shared fixed-width read of §4.3 — validate
that remaining() is at least byteSize (out-of-bounds read error otherwise),
decode at readOffset, advance readOffset by byteSize. -/
def readNumberValue (c : NumCodec) (s : ByteStore) : EResult Int :=
  if remaining s < c.byteSize then .err .outOfBoundsRead s
  else .ok (c.dec (readBytesAt s.buff s.readOffset c.byteSize))
         { s with readOffset := s.readOffset + c.byteSize }

/-- Modelled from the spec: the shared fixed-width write of §4.3 — with an
offset argument, validate it (finite non-negative integer) and write at
that absolute position without moving the write cursor; without one, write
at the write cursor and advance it. -/
def writeNumberValue (c : NumCodec) (v : Int) (offset : Option JSNum)
    (s : ByteStore) : EResult Unit :=
  match offset with
  | none => .ok () (writeCore s (c.enc v))
  | some o =>
      match checkOffsetValue o with
      | .error e => .err e s
      | .ok n => .ok () (writeAtCore s n (c.enc v))

/-- Modelled from the spec: the shared fixed-width insert of §4.3 —
validate the offset, then shift and write through the insert core. -/
def insertNumberValue (c : NumCodec) (v : Int) (offset : JSNum)
    (s : ByteStore) : EResult Unit :=
  match checkOffsetValue offset with
  | .error e => .err e s
  | .ok n => .ok () (insertCore s n (c.enc v))

/-! ### String and byte-range operations (§4.4)

The platform's text encoder and decoder are absent from the repository, so
a string travels here as the byte sequence its encoding produces; the
encoding arguments are still validated against the supported set exactly
as §4.4 and §4.5 require. -/

/-- The second positional argument of the string writes: absent, an offset,
or an encoding name (§4.4 overload disambiguation). -/
inductive StrArg2 where
  | none
  | off (o : JSNum)
  | enc (e : String)
deriving DecidableEq, Repr

/-- Resolve an optional encoding name against the instance encoding. -/
def resolveEncoding (s : ByteStore) : Option String → Except SBError Encoding
  | Option.none => .ok s.encoding
  | Option.some e => checkEncoding e

/-- Modelled from the spec: readString of §4.4 — with a length, validates
it (negative or non-finite fails), reads exactly that many bytes at the
read cursor and advances by that length; with the length omitted, reads
everything up to the logical end and advances to the end. -/
def readString (s : ByteStore) (len : Option JSNum) (enc : Option String) :
    EResult (List Nat) :=
  match resolveEncoding s enc with
  | .error e => .err e s
  | .ok _ =>
      match len with
      | Option.none =>
          .ok (readBytesAt s.buff s.readOffset (remaining s))
            { s with readOffset := s.length }
      | Option.some l =>
          match checkLengthValue l with
          | .error e => .err e s
          | .ok n =>
              .ok (readBytesAt s.buff s.readOffset n)
                { s with readOffset := s.readOffset + n }

/-- The null-terminator scan shared by readStringNT and readBufferNT
(§4.4): the bytes strictly before the first zero byte of the unread data,
and the read cursor position after the call (one past the terminator, or
the logical end when no terminator exists). -/
def scanNT (s : ByteStore) : List Nat × Nat :=
  let seg := readBytesAt s.buff s.readOffset (remaining s)
  let pre := seg.takeWhile (fun b => b != 0)
  (pre, if pre.length < seg.length then s.readOffset + pre.length + 1 else s.length)

/-- Modelled from the spec: readStringNT of §4.4 — scans forward from the
read cursor for the first zero byte, returns the bytes strictly before it
and consumes the terminator; without a terminator before the logical end,
returns everything to the end and advances to the end. -/
def readStringNT (s : ByteStore) (enc : Option String) : EResult (List Nat) :=
  match resolveEncoding s enc with
  | .error e => .err e s
  | .ok _ =>
      let r := scanNT s
      .ok r.1 { s with readOffset := r.2 }

/-- Modelled from the spec: writeString of §4.4 — the encoded bytes are
delegated to the raw write, at the write cursor or at a validated absolute
offset; an explicit encoding name is validated against the supported set. -/
def writeString (s : ByteStore) (data : List Nat) (arg2 : StrArg2)
    (enc : Option String) : EResult Unit :=
  match arg2 with
  | .none =>
      match resolveEncoding s enc with
      | .error e => .err e s
      | .ok _ => .ok () (writeCore s data)
  | .enc e =>
      match checkEncoding e with
      | .error er => .err er s
      | .ok _ => .ok () (writeCore s data)
  | .off o =>
      match checkOffsetValue o with
      | .error er => .err er s
      | .ok n =>
          match resolveEncoding s enc with
          | .error er => .err er s
          | .ok _ => .ok () (writeAtCore s n data)

/-- Modelled from the spec: insertString of §4.4 — encoded bytes delegated
to the raw insert at a validated offset. -/
def insertString (s : ByteStore) (data : List Nat) (offset : JSNum)
    (enc : Option String) : EResult Unit :=
  match checkOffsetValue offset with
  | .error er => .err er s
  | .ok n =>
      match resolveEncoding s enc with
      | .error er => .err er s
      | .ok _ => .ok () (insertCore s n data)

/-- Modelled from the spec: writeStringNT of §4.4 — as writeString, then
one trailing zero byte immediately after the payload. -/
def writeStringNT (s : ByteStore) (data : List Nat) (arg2 : StrArg2)
    (enc : Option String) : EResult Unit :=
  writeString s (data ++ [0]) arg2 enc

/-- Modelled from the spec: writeBuffer of §4.4 — the raw byte-range write,
at the write cursor or at a validated absolute offset. -/
def writeBuffer (s : ByteStore) (data : List Nat) (offset : Option JSNum) :
    EResult Unit :=
  match offset with
  | Option.none => .ok () (writeCore s data)
  | Option.some o =>
      match checkOffsetValue o with
      | .error e => .err e s
      | .ok n => .ok () (writeAtCore s n data)

/-- Modelled from the spec: insertBuffer of §4.4 — the raw byte-range
insert at a validated offset. -/
def insertBuffer (s : ByteStore) (data : List Nat) (offset : JSNum) :
    EResult Unit :=
  match checkOffsetValue offset with
  | .error e => .err e s
  | .ok n => .ok () (insertCore s n data)

/-! ### 64-bit capability detection (§4.3) -/

/-- Modelled from the spec: the platform capabilities the 64-bit operations
probe — whether the arbitrary-precision integer type exists, and which
byte-codec primitives the platform's Buffer prototype carries. -/
structure Platform where
  hasBigInt : Bool
  hasMethod : String → Bool

/-- Modelled from the spec: the capability guard of §4.3 — a missing
arbitrary-precision type fails with the type-unsupported error; an
existing type with a missing byte-codec primitive fails with the narrower
method-unsupported error naming that primitive. -/
def bigIntAndBufferInt64Check (p : Platform) (method : String) :
    Except SBError Unit :=
  if p.hasBigInt = false then .error .unsupportedType
  else if p.hasMethod method = false then .error (.unsupportedMethod method)
  else .ok ()

/-- Run a 64-bit operation behind the capability guard for the named
platform primitive. -/
def bigIntOp (p : Platform) (method : String) (k : ByteStore → EResult α)
    (s : ByteStore) : EResult α :=
  match bigIntAndBufferInt64Check p method with
  | .error e => .err e s
  | .ok _ => k s

def readBigInt64LE (p : Platform) (s : ByteStore) : EResult Int :=
  bigIntOp p "readBigInt64LE" (readNumberValue int64LECodec) s

def readBigInt64BE (p : Platform) (s : ByteStore) : EResult Int :=
  bigIntOp p "readBigInt64BE" (readNumberValue int64BECodec) s

def readBigUInt64LE (p : Platform) (s : ByteStore) : EResult Int :=
  bigIntOp p "readBigUInt64LE" (readNumberValue uint64LECodec) s

def readBigUInt64BE (p : Platform) (s : ByteStore) : EResult Int :=
  bigIntOp p "readBigUInt64BE" (readNumberValue uint64BECodec) s

def writeBigInt64LE (p : Platform) (v : Int) (offset : Option JSNum)
    (s : ByteStore) : EResult Unit :=
  bigIntOp p "writeBigInt64LE" (writeNumberValue int64LECodec v offset) s

def writeBigInt64BE (p : Platform) (v : Int) (offset : Option JSNum)
    (s : ByteStore) : EResult Unit :=
  bigIntOp p "writeBigInt64BE" (writeNumberValue int64BECodec v offset) s

def writeBigUInt64LE (p : Platform) (v : Int) (offset : Option JSNum)
    (s : ByteStore) : EResult Unit :=
  bigIntOp p "writeBigUInt64LE" (writeNumberValue uint64LECodec v offset) s

def writeBigUInt64BE (p : Platform) (v : Int) (offset : Option JSNum)
    (s : ByteStore) : EResult Unit :=
  bigIntOp p "writeBigUInt64BE" (writeNumberValue uint64BECodec v offset) s

def insertBigInt64LE (p : Platform) (v : Int) (offset : JSNum)
    (s : ByteStore) : EResult Unit :=
  bigIntOp p "writeBigInt64LE" (insertNumberValue int64LECodec v offset) s

def insertBigInt64BE (p : Platform) (v : Int) (offset : JSNum)
    (s : ByteStore) : EResult Unit :=
  bigIntOp p "writeBigInt64BE" (insertNumberValue int64BECodec v offset) s

def insertBigUInt64LE (p : Platform) (v : Int) (offset : JSNum)
    (s : ByteStore) : EResult Unit :=
  bigIntOp p "writeBigUInt64LE" (insertNumberValue uint64LECodec v offset) s

def insertBigUInt64BE (p : Platform) (v : Int) (offset : JSNum)
    (s : ByteStore) : EResult Unit :=
  bigIntOp p "writeBigUInt64BE" (insertNumberValue uint64BECodec v offset) s

/-! ### Construction (§3 lifecycle, §6) -/

/-- The default capacity of a store constructed with no explicit size
(typings: defaults to a 4096-byte internal Buffer). -/
def DEFAULT_SMARTBUFFER_SIZE : Nat := 4096

/-- Modelled from the spec: the default constructor — fresh 4096-byte
backing array, utf8 encoding, empty logical contents, both cursors at 0. -/
def mkDefault : ByteStore :=
  { buff := List.replicate DEFAULT_SMARTBUFFER_SIZE 0
  , length := 0, readOffset := 0, writeOffset := 0, encoding := .utf8 }

/-- Modelled from the spec: fromSize — a fresh backing array of the given
capacity, empty logical contents, both cursors at 0, encoding defaulting
to utf8. -/
def fromSize (size : Nat) (enc : Option Encoding) : ByteStore :=
  { buff := List.replicate size 0
  , length := 0, readOffset := 0, writeOffset := 0
  , encoding := enc.getD .utf8 }

/-- Modelled from the spec: fromBuffer — adopts an existing byte array as
the backing array with length equal to its size, both cursors at 0. -/
def fromBuffer (data : List Nat) (enc : Option Encoding) : ByteStore :=
  { buff := data
  , length := data.length, readOffset := 0, writeOffset := 0
  , encoding := enc.getD .utf8 }

/-- The construction options record of §6: optional encoding name,
optional size, optional initial bytes. -/
structure SmartBufferOptions where
  encoding : Option String
  size : Option JSNum
  buff : Option (List Nat)

/-- Modelled from the spec: fromOptions of §6 — at most one of size and
bytes may be set; a present encoding name is validated; a present size
must be a positive finite integer; with neither size nor bytes the
default capacity is used. -/
def fromOptions (o : SmartBufferOptions) : Except SBError ByteStore := do
  let enc ← match o.encoding with
    | Option.none => pure Encoding.utf8
    | Option.some e => checkEncoding e
  match o.size, o.buff with
  | some _, some _ => .error .invalidArgument
  | some sz, none =>
      match sz with
      | .bad => .error .invalidArgument
      | .int n =>
          if n ≤ 0 then .error .invalidArgument
          else pure (fromSize n.toNat (some enc))
  | none, some b => pure (fromBuffer b (some enc))
  | none, none => pure (fromSize DEFAULT_SMARTBUFFER_SIZE (some enc))

/-- Three sequential fixed-width reads, for observing a decoded sequence:
the three values when all reads succeed. -/
def read3 (c : NumCodec) (s : ByteStore) : Option (Int × Int × Int) :=
  match readNumberValue c s with
  | .err _ _ => Option.none
  | .ok v1 s1 =>
      match readNumberValue c s1 with
      | .err _ _ => Option.none
      | .ok v2 s2 =>
          match readNumberValue c s2 with
          | .err _ _ => Option.none
          | .ok v3 _ => Option.some (v1, v2, v3)

/-! ### Byte-range lemmas -/

theorem length_take_of_le {b : List Nat} {o : Nat} (h : o ≤ b.length) :
    (b.take o).length = o := by
  simp [List.length_take, h]

theorem length_setBytes {b d : List Nat} {o : Nat} (h : o + d.length ≤ b.length) :
    (setBytes b o d).length = b.length := by
  simp only [setBytes, List.length_append, List.length_take, List.length_drop]
  omega

theorem readBytesAt_setBytes_self {b d : List Nat} {o : Nat} (h : o ≤ b.length) :
    readBytesAt (setBytes b o d) o d.length = d := by
  unfold readBytesAt setBytes
  rw [List.append_assoc]
  have h1 : (b.take o).length = o := length_take_of_le h
  have h2 := List.drop_left (b.take o) (d ++ b.drop (o + d.length))
  rw [h1] at h2
  rw [h2, List.take_left]

theorem readBytesAt_congr_take {b b' : List Nat} {n o k : Nat}
    (h : b.take n = b'.take n) (hk : o + k ≤ n) :
    readBytesAt b o k = readBytesAt b' o k := by
  unfold readBytesAt
  have key : ∀ l : List Nat, (l.drop o).take k = ((l.take n).drop o).take k := by
    intro l
    rw [List.drop_take, List.take_take]
    congr 1
    omega
  rw [key b, key b', h]

theorem take_setBytes_of_le {b d : List Nat} {n o : Nat} (hn : n ≤ o)
    (ho : o ≤ b.length) : (setBytes b o d).take n = b.take n := by
  unfold setBytes
  rw [List.append_assoc, List.take_append_of_le_length (by rw [length_take_of_le ho]; exact hn),
    List.take_take, min_eq_left hn]

theorem readBytesAt_setBytes_before {b d : List Nat} {o i k : Nat}
    (h : i + k ≤ o) (ho : o ≤ b.length) :
    readBytesAt (setBytes b o d) i k = readBytesAt b i k :=
  readBytesAt_congr_take (take_setBytes_of_le (le_refl o) ho) h

theorem drop_setBytes_of_ge {b d : List Nat} {o i : Nat}
    (h : o + d.length ≤ i) (ho : o ≤ b.length) :
    (setBytes b o d).drop i = b.drop i := by
  unfold setBytes
  have hlen : (b.take o ++ d).length = o + d.length := by
    simp [List.length_append, length_take_of_le ho]
  rw [List.drop_append_eq_append_drop, List.drop_eq_nil_of_le (by omega),
    List.nil_append, hlen, List.drop_drop]
  congr 1
  omega

theorem readBytesAt_setBytes_after {b d : List Nat} {o i k : Nat}
    (h : o + d.length ≤ i) (ho : o ≤ b.length) :
    readBytesAt (setBytes b o d) i k = readBytesAt b i k := by
  unfold readBytesAt
  rw [drop_setBytes_of_ge h ho]

/-! ### Capacity-manager lemmas -/

theorem growSize_ge (c m : Nat) : m ≤ growSize c m := by
  have h : growSize c m = if c * 3 / 2 + 1 < m then m else c * 3 / 2 + 1 := rfl
  rw [h]
  split <;> omega

theorem ensureCapacity_of_le {s : ByteStore} {m : Nat}
    (h : m ≤ s.buff.length) : ensureCapacity s m = s := by
  unfold ensureCapacity
  rw [if_neg (by omega)]

theorem ensureCapacity_length (s : ByteStore) (m : Nat) :
    (ensureCapacity s m).length = s.length := by
  unfold ensureCapacity
  split <;> rfl

theorem ensureCapacity_readOffset (s : ByteStore) (m : Nat) :
    (ensureCapacity s m).readOffset = s.readOffset := by
  unfold ensureCapacity
  split <;> rfl

theorem ensureCapacity_writeOffset (s : ByteStore) (m : Nat) :
    (ensureCapacity s m).writeOffset = s.writeOffset := by
  unfold ensureCapacity
  split <;> rfl

theorem ensureCapacity_encoding (s : ByteStore) (m : Nat) :
    (ensureCapacity s m).encoding = s.encoding := by
  unfold ensureCapacity
  split <;> rfl

theorem capacity_ensureCapacity_grow {s : ByteStore} {m : Nat}
    (hlen : s.length ≤ s.buff.length) (h : s.buff.length < m) :
    capacity (ensureCapacity s m) = growSize s.buff.length m := by
  have hge : m ≤ growSize s.buff.length m := growSize_ge _ _
  unfold ensureCapacity
  rw [if_pos h]
  simp only [capacity, List.length_append, List.length_take, List.length_replicate]
  omega

theorem capacity_ensureCapacity_ge {s : ByteStore} {m : Nat}
    (hlen : s.length ≤ s.buff.length) :
    m ≤ capacity (ensureCapacity s m) := by
  by_cases h : s.buff.length < m
  · rw [capacity_ensureCapacity_grow hlen h]
    exact growSize_ge _ _
  · rw [ensureCapacity_of_le (by omega)]
    simp only [capacity]
    omega

theorem capacity_ensureCapacity_ge_old {s : ByteStore} {m : Nat}
    (hlen : s.length ≤ s.buff.length) :
    capacity s ≤ capacity (ensureCapacity s m) := by
  by_cases h : s.buff.length < m
  · have := capacity_ensureCapacity_ge (s := s) (m := m) hlen
    simp only [capacity] at *
    omega
  · rw [ensureCapacity_of_le (by omega)]

theorem take_ensureCapacity {s : ByteStore} {m : Nat}
    (hlen : s.length ≤ s.buff.length) :
    (ensureCapacity s m).buff.take s.length = s.buff.take s.length := by
  unfold ensureCapacity
  split
  · have h1 : (s.buff.take s.length).length = s.length := length_take_of_le hlen
    have h2 := List.take_left (s.buff.take s.length)
      (List.replicate (growSize s.buff.length m - s.length) 0)
    rw [h1] at h2
    exact h2
  · rfl

theorem readBytesAt_ensureCapacity {s : ByteStore} {m o k : Nat}
    (hlen : s.length ≤ s.buff.length) (h : o + k ≤ s.length) :
    readBytesAt (ensureCapacity s m).buff o k = readBytesAt s.buff o k :=
  readBytesAt_congr_take (take_ensureCapacity hlen) h

/-! ### Write-core lemmas -/

theorem capacity_fromSize (n : Nat) (e : Option Encoding) :
    capacity (fromSize n e) = n := by
  simp [fromSize, capacity]

theorem length_fromSize (n : Nat) (e : Option Encoding) :
    (fromSize n e).length = 0 := rfl

theorem writeCore_eq (s : ByteStore) (data : List Nat) :
    writeCore s data =
      let s1 := ensureCapacity s (s.writeOffset + data.length)
      { s1 with buff := setBytes s1.buff s1.writeOffset data
              , writeOffset := s1.writeOffset + data.length
              , length := max s1.length (s1.writeOffset + data.length) } := rfl

theorem capacity_writeCore {s : ByteStore} (data : List Nat)
    (hwf : s.length ≤ capacity s) :
    capacity (writeCore s data) =
      capacity (ensureCapacity s (s.writeOffset + data.length)) := by
  rw [writeCore_eq]
  simp only [capacity]
  apply length_setBytes
  rw [ensureCapacity_writeOffset]
  exact capacity_ensureCapacity_ge hwf

/-- Claim C1: a single write that needs capacity N beyond the current
capacity C reallocates to exactly C * 3 / 2 + 1 (the floor of C * 1.5 + 1)
when that candidate covers N, and to exactly N otherwise, preserving the
meaningful bytes below the logical length; in particular capacity 100 with
a 105-byte write yields capacity 151, and capacity 1 with a write of more
than 2 bytes yields exactly the write's size. -/
theorem C1_growth_policy (s : ByteStore) (N : Nat)
    (hwf : s.length ≤ capacity s) (hN : capacity s < N) :
    (capacity (ensureCapacity s N) =
       if N ≤ capacity s * 3 / 2 + 1 then capacity s * 3 / 2 + 1 else N)
    ∧ (ensureCapacity s N).buff.take s.length = s.buff.take s.length
    ∧ (∀ data : List Nat, capacity s < s.writeOffset + data.length →
        capacity (writeCore s data) =
          if s.writeOffset + data.length ≤ capacity s * 3 / 2 + 1
          then capacity s * 3 / 2 + 1 else s.writeOffset + data.length)
    ∧ (∀ data : List Nat, data.length = 105 →
        capacity (writeCore (fromSize 100 Option.none) data) = 151)
    ∧ (∀ data : List Nat, 2 < data.length →
        capacity (writeCore (fromSize 1 Option.none) data) = data.length) := by
  have hmain : ∀ (s' : ByteStore) (N' : Nat), s'.length ≤ capacity s' →
      capacity s' < N' →
      capacity (ensureCapacity s' N') =
        if N' ≤ capacity s' * 3 / 2 + 1 then capacity s' * 3 / 2 + 1 else N' := by
    intro s' N' hwf' hN'
    rw [capacity_ensureCapacity_grow hwf' hN']
    have hg : growSize s'.buff.length N' =
        if s'.buff.length * 3 / 2 + 1 < N' then N'
        else s'.buff.length * 3 / 2 + 1 := rfl
    rw [hg]
    simp only [capacity]
    split <;> split <;> omega
  have hwrite : ∀ (s' : ByteStore) (data : List Nat), s'.length ≤ capacity s' →
      capacity s' < s'.writeOffset + data.length →
      capacity (writeCore s' data) =
        if s'.writeOffset + data.length ≤ capacity s' * 3 / 2 + 1
        then capacity s' * 3 / 2 + 1 else s'.writeOffset + data.length := by
    intro s' data hwf' hreq
    rw [capacity_writeCore data hwf']
    exact hmain s' _ hwf' hreq
  refine ⟨hmain s N hwf hN, take_ensureCapacity hwf,
    fun data => hwrite s data hwf, ?_, ?_⟩
  · intro data hd
    have hcap : capacity (fromSize 100 Option.none) = 100 := capacity_fromSize _ _
    have hwo : (fromSize 100 Option.none).writeOffset = 0 := rfl
    have hlen : (fromSize 100 Option.none).length = 0 := rfl
    have h := hwrite (fromSize 100 Option.none) data
      (by rw [hlen]; omega) (by rw [hcap, hwo, hd]; omega)
    rw [h, hcap, hwo, hd]
    norm_num
  · intro data hd
    have hcap : capacity (fromSize 1 Option.none) = 1 := capacity_fromSize _ _
    have hwo : (fromSize 1 Option.none).writeOffset = 0 := rfl
    have hlen : (fromSize 1 Option.none).length = 0 := rfl
    have h := hwrite (fromSize 1 Option.none) data
      (by rw [hlen]; omega) (by rw [hcap, hwo]; omega)
    rw [h, hcap, hwo]
    rw [if_neg (by omega)]
    omega

/-- Witness for C1 at capacity 100 and a 105-byte requirement. -/
theorem C1_growth_policy_witness :
    capacity (ensureCapacity (fromSize 100 Option.none) 105) =
      (if 105 ≤ capacity (fromSize 100 Option.none) * 3 / 2 + 1
       then capacity (fromSize 100 Option.none) * 3 / 2 + 1 else 105) :=
  (C1_growth_policy (fromSize 100 Option.none) 105 (by decide) (by decide)).1

/-! ### Codec lemmas -/

theorem length_toBytesLE (k : Nat) : ∀ n, (toBytesLE k n).length = k := by
  induction k with
  | zero => intro n; rfl
  | succ k ih => intro n; simp [toBytesLE, ih]

theorem length_toBytesBE (k n : Nat) : (toBytesBE k n).length = k := by
  simp [toBytesBE, length_toBytesLE]

theorem uintCodecLE_enc_length (k : Nat) (v : Int) :
    ((uintCodecLE k).enc v).length = (uintCodecLE k).byteSize := by
  simp [uintCodecLE, length_toBytesLE]

theorem uintCodecBE_enc_length (k : Nat) (v : Int) :
    ((uintCodecBE k).enc v).length = (uintCodecBE k).byteSize := by
  simp [uintCodecBE, length_toBytesBE]

theorem intCodecLE_enc_length (k : Nat) (v : Int) :
    ((intCodecLE k).enc v).length = (intCodecLE k).byteSize := by
  simp [intCodecLE, length_toBytesLE]

theorem intCodecBE_enc_length (k : Nat) (v : Int) :
    ((intCodecBE k).enc v).length = (intCodecBE k).byteSize := by
  simp [intCodecBE, length_toBytesBE]

theorem codec_enc_length {c : NumCodec} (hc : c ∈ codecList) (v : Int) :
    (c.enc v).length = c.byteSize := by
  simp only [codecList, List.mem_cons, List.not_mem_nil, or_false] at hc
  rcases hc with rfl | rfl | rfl | rfl | rfl | rfl | rfl | rfl | rfl | rfl |
    rfl | rfl | rfl | rfl | rfl | rfl | rfl | rfl
  · exact intCodecLE_enc_length 1 v
  · exact uintCodecLE_enc_length 1 v
  · exact intCodecLE_enc_length 2 v
  · exact intCodecBE_enc_length 2 v
  · exact uintCodecLE_enc_length 2 v
  · exact uintCodecBE_enc_length 2 v
  · exact intCodecLE_enc_length 4 v
  · exact intCodecBE_enc_length 4 v
  · exact uintCodecLE_enc_length 4 v
  · exact uintCodecBE_enc_length 4 v
  · exact intCodecLE_enc_length 8 v
  · exact intCodecBE_enc_length 8 v
  · exact uintCodecLE_enc_length 8 v
  · exact uintCodecBE_enc_length 8 v
  · exact uintCodecLE_enc_length 4 v
  · exact uintCodecBE_enc_length 4 v
  · exact uintCodecLE_enc_length 8 v
  · exact uintCodecBE_enc_length 8 v

/-! ### Insert-core lemmas -/

theorem length_readBytesAt (b : List Nat) (o k : Nat) :
    (readBytesAt b o k).length = min k (b.length - o) := by
  simp [readBytesAt]

theorem insertCore_eq (s : ByteStore) (o : Nat) (data : List Nat) :
    insertCore s o data =
      let s1 := ensureCapacity s (s.length + data.length)
      let shifted := setBytes s1.buff (o + data.length)
        (readBytesAt s1.buff o (s1.length - o))
      { s1 with buff := setBytes shifted o data
              , length := s1.length + data.length
              , writeOffset := s1.writeOffset + data.length } := rfl

/-- The full behaviour of the insert core on a valid offset: length and
write cursor grow by the data size, the data lands at the offset, the old
bytes from the offset on move right by the data size, and the bytes below
the offset stay. -/
theorem insertCore_spec (s : ByteStore) (o : Nat) (data : List Nat)
    (ho : o ≤ s.length) (hwf : s.length ≤ capacity s) :
    (insertCore s o data).length = s.length + data.length
    ∧ (insertCore s o data).writeOffset = s.writeOffset + data.length
    ∧ (insertCore s o data).readOffset = s.readOffset
    ∧ (insertCore s o data).encoding = s.encoding
    ∧ readBytesAt (insertCore s o data).buff o data.length = data
    ∧ readBytesAt (insertCore s o data).buff (o + data.length) (s.length - o) =
        readBytesAt s.buff o (s.length - o)
    ∧ readBytesAt (insertCore s o data).buff 0 o = readBytesAt s.buff 0 o := by
  have hcap1 : s.length + data.length ≤
      (ensureCapacity s (s.length + data.length)).buff.length :=
    capacity_ensureCapacity_ge hwf
  set s1 := ensureCapacity s (s.length + data.length) with hs1
  have hlen1 : s1.length = s.length := ensureCapacity_length _ _
  have hwo1 : s1.writeOffset = s.writeOffset := ensureCapacity_writeOffset _ _
  have hro1 : s1.readOffset = s.readOffset := ensureCapacity_readOffset _ _
  have henc1 : s1.encoding = s.encoding := ensureCapacity_encoding _ _
  have hseg : readBytesAt s1.buff o (s1.length - o) =
      readBytesAt s.buff o (s.length - o) := by
    rw [hlen1]
    exact readBytesAt_ensureCapacity hwf (by omega)
  have hseglen : (readBytesAt s1.buff o (s1.length - o)).length = s.length - o := by
    rw [length_readBytesAt, hlen1]
    omega
  set seg := readBytesAt s1.buff o (s1.length - o) with hsegdef
  set shifted := setBytes s1.buff (o + data.length) seg with hshdef
  have hshlen : shifted.length = s1.buff.length := by
    rw [hshdef]
    exact length_setBytes (by omega)
  rw [insertCore_eq]
  simp only [← hs1, ← hsegdef, ← hshdef]
  refine ⟨by rw [hlen1], by rw [hwo1], hro1, henc1, ?_, ?_, ?_⟩
  · exact readBytesAt_setBytes_self (by omega)
  · rw [readBytesAt_setBytes_after (by omega) (by omega)]
    have h := readBytesAt_setBytes_self (b := s1.buff) (d := seg)
      (o := o + data.length) (by omega)
    rw [hseglen] at h
    rw [← hshdef] at h
    rw [h]
    exact hseg
  · rw [readBytesAt_setBytes_before (by omega) (by omega),
      hshdef, readBytesAt_setBytes_before (by omega) (by omega), hs1]
    exact readBytesAt_ensureCapacity hwf (by omega)

theorem checkOffsetValue_nat (o : Nat) :
    checkOffsetValue (JSNum.int o) = .ok o := by
  show (if (o : Int) < 0 then Except.error SBError.invalidArgument
        else Except.ok (Int.toNat o)) = Except.ok o
  rw [if_neg (by omega)]
  simp

/-- Claim C2: a numeric insert at a valid offset shifts the bytes from the
offset to the logical end right by the codec's byte size (after growing
capacity), puts the encoded value at the offset, leaves the bytes below
the offset in place, and grows both length and writeOffset by exactly the
byte size; writing A then B and inserting C at their boundary therefore
decodes as the sequence A, C, B. -/
theorem C2_insert_semantics (c : NumCodec) (v : Int) (s : ByteStore) (o : Nat)
    (hc : c ∈ codecList) (ho : o ≤ s.length) (hwf : s.length ≤ capacity s) :
    insertNumberValue c v (JSNum.int o) s = .ok () (insertCore s o (c.enc v))
    ∧ (insertCore s o (c.enc v)).length = s.length + c.byteSize
    ∧ (insertCore s o (c.enc v)).writeOffset = s.writeOffset + c.byteSize
    ∧ readBytesAt (insertCore s o (c.enc v)).buff o c.byteSize = c.enc v
    ∧ readBytesAt (insertCore s o (c.enc v)).buff (o + c.byteSize) (s.length - o)
        = readBytesAt s.buff o (s.length - o)
    ∧ readBytesAt (insertCore s o (c.enc v)).buff 0 o = readBytesAt s.buff 0 o
    ∧ read3 uint16LECodec
        (insertCore
          (writeCore (writeCore (fromSize 8 Option.none) (uint16LECodec.enc 4660))
            (uint16LECodec.enc 22136))
          2 (uint16LECodec.enc 39612))
        = Option.some (4660, 39612, 22136) := by
  have hk := codec_enc_length hc v
  have hspec := insertCore_spec s o (c.enc v) ho hwf
  refine ⟨?_, ?_, ?_, ?_, ?_, ?_, ?_⟩
  · simp [insertNumberValue, checkOffsetValue_nat]
  · rw [hspec.1, hk]
  · rw [hspec.2.1, hk]
  · rw [← hk]
    exact hspec.2.2.2.2.1
  · rw [← hk]
    exact hspec.2.2.2.2.2.1
  · exact hspec.2.2.2.2.2.2
  · decide

/-- Witness for C2: inserting a 16-bit value at offset 0 of a fresh 4-byte
store. -/
theorem C2_insert_semantics_witness :
    (insertCore (fromSize 4 Option.none) 0 (uint16LECodec.enc 4660)).length =
      (fromSize 4 Option.none).length + uint16LECodec.byteSize :=
  (C2_insert_semantics uint16LECodec 4660 (fromSize 4 Option.none) 0
    (by simp [codecList]) (by decide) (by decide)).2.1

/-! ### Codec round-trip lemmas -/

theorem fromBytesLE_toBytesLE (k : Nat) :
    ∀ n, fromBytesLE (toBytesLE k n) = n % 256 ^ k := by
  induction k with
  | zero => intro n; simp [toBytesLE, fromBytesLE, Nat.mod_one]
  | succ k ih =>
      intro n
      simp only [toBytesLE, fromBytesLE, ih]
      rw [show (256 : Nat) ^ (k + 1) = 256 * 256 ^ k by ring, Nat.mod_mul]

theorem fromBytesBE_toBytesBE (k n : Nat) :
    fromBytesBE (toBytesBE k n) = n % 256 ^ k := by
  simp [fromBytesBE, toBytesBE, List.reverse_reverse, fromBytesLE_toBytesLE]

theorem emod_eq_add_of_neg {v M : Int} (hM : 0 < M) (h1 : -M ≤ v)
    (h2 : v < 0) : v % M = v + M := by
  have h3 : (v + M) % M = v % M := by
    have := Int.add_mul_emod_self_left (a := v) (b := M) (c := 1)
    simpa using this
  rw [← h3]
  exact Int.emod_eq_of_lt (by omega) (by omega)

theorem uintLE_roundtrip (k : Nat) (v : Int) (hlo : (uintCodecLE k).lo ≤ v)
    (hhi : v < (uintCodecLE k).hi) :
    (uintCodecLE k).dec ((uintCodecLE k).enc v) = v := by
  have hlo' : (0 : Int) ≤ v := hlo
  have hhi' : v < ((256 ^ k : Nat) : Int) := hhi
  show ((fromBytesLE (toBytesLE k v.toNat) : Nat) : Int) = v
  rw [fromBytesLE_toBytesLE]
  have h1 : v.toNat < 256 ^ k := by omega
  rw [Nat.mod_eq_of_lt h1]
  omega

theorem uintBE_roundtrip (k : Nat) (v : Int) (hlo : (uintCodecBE k).lo ≤ v)
    (hhi : v < (uintCodecBE k).hi) :
    (uintCodecBE k).dec ((uintCodecBE k).enc v) = v := by
  have hlo' : (0 : Int) ≤ v := hlo
  have hhi' : v < ((256 ^ k : Nat) : Int) := hhi
  show ((fromBytesBE (toBytesBE k v.toNat) : Nat) : Int) = v
  rw [fromBytesBE_toBytesBE]
  have h1 : v.toNat < 256 ^ k := by omega
  rw [Nat.mod_eq_of_lt h1]
  omega

theorem intLE_roundtrip (k : Nat) (hk : 0 < k) (v : Int)
    (hlo : (intCodecLE k).lo ≤ v) (hhi : v < (intCodecLE k).hi) :
    (intCodecLE k).dec ((intCodecLE k).enc v) = v := by
  have hlo' : -(((256 ^ k : Nat) / 2 : Nat) : Int) ≤ v := hlo
  have hhi' : v < (((256 ^ k : Nat) / 2 : Nat) : Int) := hhi
  show (let u : Int := fromBytesLE (toBytesLE k (v.emod ((256 ^ k : Nat))).toNat)
        if ((256 ^ k : Nat) : Int) / 2 ≤ u then u - ((256 ^ k : Nat) : Int) else u) = v
  have hMpos : 0 < (256 : Nat) ^ k := Nat.pos_pow_of_pos _ (by norm_num)
  have heven : 2 ∣ (256 : Nat) ^ k :=
    dvd_trans (by norm_num) (dvd_pow_self 256 (by omega : k ≠ 0))
  have h2H : (256 : Nat) ^ k = 2 * ((256 : Nat) ^ k / 2) := (Nat.mul_div_cancel' heven).symm
  have hMposI : (0 : Int) < ((256 ^ k : Nat) : Int) := by exact_mod_cast hMpos
  have hdivI : (((256 ^ k : Nat) / 2 : Nat) : Int) = ((256 ^ k : Nat) : Int) / 2 :=
    Int.ofNat_ediv _ _
  have hu0 : 0 ≤ v.emod ((256 ^ k : Nat)) := Int.emod_nonneg _ (ne_of_gt hMposI)
  have huM : v.emod ((256 ^ k : Nat)) < ((256 ^ k : Nat) : Int) := Int.emod_lt_of_pos _ hMposI
  have hser : fromBytesLE (toBytesLE k (v.emod ((256 ^ k : Nat))).toNat) =
      (v.emod ((256 ^ k : Nat))).toNat % 256 ^ k := fromBytesLE_toBytesLE _ _
  have htoNatlt : (v.emod ((256 ^ k : Nat))).toNat < 256 ^ k := by omega
  have hser2 : ((fromBytesLE (toBytesLE k (v.emod ((256 ^ k : Nat))).toNat) : Nat) : Int) =
      v.emod ((256 ^ k : Nat)) := by
    rw [hser, Nat.mod_eq_of_lt htoNatlt]
    omega
  simp only [hser2]
  rcases le_or_lt 0 v with hv0 | hv0
  · have hu : v.emod ((256 ^ k : Nat)) = v := Int.emod_eq_of_lt hv0 (by omega)
    rw [hu, if_neg (by omega)]
  · have hu : v.emod ((256 ^ k : Nat)) = v + ((256 ^ k : Nat) : Int) :=
      emod_eq_add_of_neg hMposI (by omega) hv0
    rw [hu, if_pos (by omega)]
    omega

theorem intBE_roundtrip (k : Nat) (hk : 0 < k) (v : Int)
    (hlo : (intCodecBE k).lo ≤ v) (hhi : v < (intCodecBE k).hi) :
    (intCodecBE k).dec ((intCodecBE k).enc v) = v := by
  have hlo' : -(((256 ^ k : Nat) / 2 : Nat) : Int) ≤ v := hlo
  have hhi' : v < (((256 ^ k : Nat) / 2 : Nat) : Int) := hhi
  show (let u : Int := fromBytesBE (toBytesBE k (v.emod ((256 ^ k : Nat))).toNat)
        if ((256 ^ k : Nat) : Int) / 2 ≤ u then u - ((256 ^ k : Nat) : Int) else u) = v
  have hMpos : 0 < (256 : Nat) ^ k := Nat.pos_pow_of_pos _ (by norm_num)
  have heven : 2 ∣ (256 : Nat) ^ k :=
    dvd_trans (by norm_num) (dvd_pow_self 256 (by omega : k ≠ 0))
  have h2H : (256 : Nat) ^ k = 2 * ((256 : Nat) ^ k / 2) := (Nat.mul_div_cancel' heven).symm
  have hMposI : (0 : Int) < ((256 ^ k : Nat) : Int) := by exact_mod_cast hMpos
  have hdivI : (((256 ^ k : Nat) / 2 : Nat) : Int) = ((256 ^ k : Nat) : Int) / 2 :=
    Int.ofNat_ediv _ _
  have hu0 : 0 ≤ v.emod ((256 ^ k : Nat)) := Int.emod_nonneg _ (ne_of_gt hMposI)
  have huM : v.emod ((256 ^ k : Nat)) < ((256 ^ k : Nat) : Int) := Int.emod_lt_of_pos _ hMposI
  have hser : fromBytesBE (toBytesBE k (v.emod ((256 ^ k : Nat))).toNat) =
      (v.emod ((256 ^ k : Nat))).toNat % 256 ^ k := fromBytesBE_toBytesBE _ _
  have htoNatlt : (v.emod ((256 ^ k : Nat))).toNat < 256 ^ k := by omega
  have hser2 : ((fromBytesBE (toBytesBE k (v.emod ((256 ^ k : Nat))).toNat) : Nat) : Int) =
      v.emod ((256 ^ k : Nat)) := by
    rw [hser, Nat.mod_eq_of_lt htoNatlt]
    omega
  simp only [hser2]
  rcases le_or_lt 0 v with hv0 | hv0
  · have hu : v.emod ((256 ^ k : Nat)) = v := Int.emod_eq_of_lt hv0 (by omega)
    rw [hu, if_neg (by omega)]
  · have hu : v.emod ((256 ^ k : Nat)) = v + ((256 ^ k : Nat) : Int) :=
      emod_eq_add_of_neg hMposI (by omega) hv0
    rw [hu, if_pos (by omega)]
    omega

theorem codec_roundtrip {c : NumCodec} (hc : c ∈ codecList) (v : Int)
    (hlo : c.lo ≤ v) (hhi : v < c.hi) : c.dec (c.enc v) = v := by
  simp only [codecList, List.mem_cons, List.not_mem_nil, or_false] at hc
  rcases hc with rfl | rfl | rfl | rfl | rfl | rfl | rfl | rfl | rfl | rfl |
    rfl | rfl | rfl | rfl | rfl | rfl | rfl | rfl
  · exact intLE_roundtrip 1 (by norm_num) v hlo hhi
  · exact uintLE_roundtrip 1 v hlo hhi
  · exact intLE_roundtrip 2 (by norm_num) v hlo hhi
  · exact intBE_roundtrip 2 (by norm_num) v hlo hhi
  · exact uintLE_roundtrip 2 v hlo hhi
  · exact uintBE_roundtrip 2 v hlo hhi
  · exact intLE_roundtrip 4 (by norm_num) v hlo hhi
  · exact intBE_roundtrip 4 (by norm_num) v hlo hhi
  · exact uintLE_roundtrip 4 v hlo hhi
  · exact uintBE_roundtrip 4 v hlo hhi
  · exact intLE_roundtrip 8 (by norm_num) v hlo hhi
  · exact intBE_roundtrip 8 (by norm_num) v hlo hhi
  · exact uintLE_roundtrip 8 v hlo hhi
  · exact uintBE_roundtrip 8 v hlo hhi
  · exact uintLE_roundtrip 4 v hlo hhi
  · exact uintBE_roundtrip 4 v hlo hhi
  · exact uintLE_roundtrip 8 v hlo hhi
  · exact uintBE_roundtrip 8 v hlo hhi

/-! ### Write-core behaviour -/

/-- The full behaviour of the cursor write core: read cursor and encoding
untouched, write cursor advanced by the data size, length extended to
cover the write, the data stored at the old write cursor, and every byte
range below both the write cursor and the old length preserved. -/
theorem writeCore_spec (s : ByteStore) (data : List Nat)
    (hwf : s.length ≤ capacity s) :
    (writeCore s data).readOffset = s.readOffset
    ∧ (writeCore s data).writeOffset = s.writeOffset + data.length
    ∧ (writeCore s data).length = max s.length (s.writeOffset + data.length)
    ∧ (writeCore s data).encoding = s.encoding
    ∧ readBytesAt (writeCore s data).buff s.writeOffset data.length = data
    ∧ (∀ i k, i + k ≤ min s.writeOffset s.length →
        readBytesAt (writeCore s data).buff i k = readBytesAt s.buff i k) := by
  have hcap1 : s.writeOffset + data.length ≤
      (ensureCapacity s (s.writeOffset + data.length)).buff.length :=
    capacity_ensureCapacity_ge hwf
  set s1 := ensureCapacity s (s.writeOffset + data.length) with hs1
  have hlen1 : s1.length = s.length := ensureCapacity_length _ _
  have hwo1 : s1.writeOffset = s.writeOffset := ensureCapacity_writeOffset _ _
  have hro1 : s1.readOffset = s.readOffset := ensureCapacity_readOffset _ _
  have henc1 : s1.encoding = s.encoding := ensureCapacity_encoding _ _
  refine ⟨hro1, ?_, ?_, henc1, ?_, ?_⟩
  · show s1.writeOffset + data.length = s.writeOffset + data.length
    rw [hwo1]
  · show max s1.length (s1.writeOffset + data.length) =
      max s.length (s.writeOffset + data.length)
    rw [hwo1, hlen1]
  · show readBytesAt (setBytes s1.buff s1.writeOffset data) s.writeOffset data.length = data
    rw [hwo1]
    exact readBytesAt_setBytes_self (by omega)
  · intro i k hik
    show readBytesAt (setBytes s1.buff s1.writeOffset data) i k = readBytesAt s.buff i k
    rw [hwo1, readBytesAt_setBytes_before (by omega) (by omega), hs1]
    exact readBytesAt_ensureCapacity hwf (by omega)

/-- Claim C3: for every numeric codec of the ten types and both
endiannesses, and every representable value, a cursor write followed by a
sequential read returns exactly the written value (floats are carried as
their bit patterns, on which equality is exact). -/
theorem C3_write_read_roundtrip (c : NumCodec) (v : Int) (s : ByteStore)
    (hc : c ∈ codecList) (hlo : c.lo ≤ v) (hhi : v < c.hi)
    (hwf : s.length ≤ capacity s) (hro : s.readOffset = s.writeOffset) :
    writeNumberValue c v Option.none s = .ok () (writeCore s (c.enc v))
    ∧ readNumberValue c (writeCore s (c.enc v)) =
        .ok v { writeCore s (c.enc v) with readOffset := s.readOffset + c.byteSize } := by
  have hk := codec_enc_length hc v
  have hspec := writeCore_spec s (c.enc v) hwf
  refine ⟨rfl, ?_⟩
  set s' := writeCore s (c.enc v) with hs'
  have hro' : s'.readOffset = s.readOffset := hspec.1
  have hlen' : s'.length = max s.length (s.writeOffset + (c.enc v).length) := hspec.2.2.1
  have hval : readBytesAt s'.buff s.writeOffset (c.enc v).length = c.enc v :=
    hspec.2.2.2.2.1
  have hrem : ¬ remaining s' < c.byteSize := by
    simp only [remaining]
    omega
  unfold readNumberValue
  rw [if_neg hrem]
  have hread : readBytesAt s'.buff s'.readOffset c.byteSize = c.enc v := by
    rw [hro', hro, ← hk]
    exact hval
  rw [hread, codec_roundtrip hc v hlo hhi, hro']

/-- Witness for C3: a 16-bit little-endian round trip of 4660 on a fresh
4-byte store. -/
theorem C3_write_read_roundtrip_witness :
    readNumberValue uint16LECodec (writeCore (fromSize 4 Option.none) (uint16LECodec.enc 4660)) =
      .ok 4660 { writeCore (fromSize 4 Option.none) (uint16LECodec.enc 4660) with
                   readOffset := (fromSize 4 Option.none).readOffset + uint16LECodec.byteSize } :=
  (C3_write_read_roundtrip uint16LECodec 4660 (fromSize 4 Option.none)
    (by simp [codecList]) (by decide) (by decide) (by decide) (by decide)).2

/-! ### Null-terminator-scan lemmas -/

theorem takeWhile_append_stop {p : Nat → Bool} {pre post : List Nat} {x : Nat}
    (hpre : ∀ y ∈ pre, p y = true) (hx : p x = false) :
    (pre ++ x :: post).takeWhile p = pre := by
  induction pre with
  | nil => simp [List.takeWhile_cons, hx]
  | cons a t ih =>
      rw [List.cons_append, List.takeWhile_cons, hpre a (by simp),
        if_pos rfl, ih (fun y hy => hpre y (by simp [hy]))]

theorem scanNT_eq (s : ByteStore) :
    scanNT s =
      (let seg := readBytesAt s.buff s.readOffset (remaining s)
       let pre := seg.takeWhile (fun b => b != 0)
       (pre, if pre.length < seg.length
             then s.readOffset + pre.length + 1 else s.length)) := rfl

/-- Claim C4: readStringNT scans the unread bytes for the first zero byte;
when one exists the bytes strictly before it are returned and the read
cursor lands one past the terminator (so an immediate zero byte yields the
empty result), and when none exists everything up to the logical end is
returned and the cursor lands at the end. -/
theorem C4_readStringNT (s : ByteStore) (hro : s.readOffset ≤ s.length)
    (hwf : s.length ≤ capacity s) :
    (∀ pre post : List Nat,
       readBytesAt s.buff s.readOffset (remaining s) = pre ++ 0 :: post →
       (∀ y ∈ pre, y ≠ 0) →
       readStringNT s Option.none =
         .ok pre { s with readOffset := s.readOffset + pre.length + 1 })
    ∧ ((∀ y ∈ readBytesAt s.buff s.readOffset (remaining s), y ≠ 0) →
       readStringNT s Option.none =
         .ok (readBytesAt s.buff s.readOffset (remaining s))
           { s with readOffset := s.length })
    ∧ readStringNT (fromBuffer [0, 7] Option.none) Option.none =
        .ok [] { fromBuffer [0, 7] Option.none with readOffset := 1 } := by
  have hbase : readStringNT s Option.none =
      .ok (scanNT s).1 { s with readOffset := (scanNT s).2 } := rfl
  refine ⟨?_, ?_, by decide⟩
  · intro pre post hsegAB hpre
    have htw : (readBytesAt s.buff s.readOffset (remaining s)).takeWhile
        (fun b => b != 0) = pre := by
      rw [hsegAB]
      exact takeWhile_append_stop
        (fun y hy => by simpa using hpre y hy) (by decide)
    have hscan : scanNT s = (pre, s.readOffset + pre.length + 1) := by
      rw [scanNT_eq]
      simp only [htw]
      rw [if_pos (by rw [hsegAB]; simp)]
    rw [hbase, hscan]
  · intro hall
    have htw : (readBytesAt s.buff s.readOffset (remaining s)).takeWhile
        (fun b => b != 0) = readBytesAt s.buff s.readOffset (remaining s) :=
      List.takeWhile_eq_self_iff.mpr (fun y hy => by simpa using hall y hy)
    have hscan : scanNT s =
        (readBytesAt s.buff s.readOffset (remaining s), s.length) := by
      rw [scanNT_eq]
      simp only [htw]
      rw [if_neg (lt_irrefl _)]
    rw [hbase, hscan]

/-- Witness for C4: on the byte contents 104, 105, 0, 33 the scan returns
the two bytes before the terminator and stops one past it. -/
theorem C4_readStringNT_witness :
    readStringNT (fromBuffer [104, 105, 0, 33] Option.none) Option.none =
      .ok [104, 105]
        { fromBuffer [104, 105, 0, 33] Option.none with readOffset := 3 } := by
  have h := (C4_readStringNT (fromBuffer [104, 105, 0, 33] Option.none)
    (by decide) (by decide)).1 [104, 105] [33] (by decide) (by decide)
  simpa using h

/-- Claim C5: a fixed-width numeric read fails with the out-of-bounds read
error exactly when fewer than byteSize bytes remain unread, and otherwise
decodes the byteSize bytes at the read cursor and advances the cursor by
exactly byteSize. -/
theorem C5_read_bounds (c : NumCodec) (s : ByteStore) (hc : c ∈ codecList) :
    (remaining s < c.byteSize →
      readNumberValue c s = .err .outOfBoundsRead s)
    ∧ (c.byteSize ≤ remaining s →
      readNumberValue c s =
        .ok (c.dec (readBytesAt s.buff s.readOffset c.byteSize))
          { s with readOffset := s.readOffset + c.byteSize }) := by
  constructor
  · intro h
    unfold readNumberValue
    rw [if_pos h]
  · intro h
    unfold readNumberValue
    rw [if_neg (by omega)]

/-- Witness for C5: a four-byte read on a store with only two unread bytes
fails without moving anything. -/
theorem C5_read_bounds_witness :
    readNumberValue uint32BECodec (fromBuffer [1, 2] Option.none) =
      .err .outOfBoundsRead (fromBuffer [1, 2] Option.none) :=
  (C5_read_bounds uint32BECodec (fromBuffer [1, 2] Option.none)
    (by simp [codecList])).1 (by decide)

/-- Claim C6: assigning the read cursor succeeds exactly for values between
0 and length and the write cursor for values between 0 and capacity, both
failing with the out-of-bounds cursor error otherwise; a successful
assignment changes only that cursor. -/
theorem C6_cursor_assignment (s : ByteStore) (n : Int) :
    ((0 ≤ n ∧ n ≤ (s.length : Int)) →
      setReadOffset s (JSNum.int n) = .ok () { s with readOffset := n.toNat })
    ∧ (¬(0 ≤ n ∧ n ≤ (s.length : Int)) →
      setReadOffset s (JSNum.int n) = .err .outOfBoundsCursor s)
    ∧ ((0 ≤ n ∧ n ≤ (capacity s : Int)) →
      setWriteOffset s (JSNum.int n) = .ok () { s with writeOffset := n.toNat })
    ∧ (¬(0 ≤ n ∧ n ≤ (capacity s : Int)) →
      setWriteOffset s (JSNum.int n) = .err .outOfBoundsCursor s)
    ∧ ({ s with readOffset := n.toNat }.length = s.length
        ∧ { s with readOffset := n.toNat }.writeOffset = s.writeOffset
        ∧ { s with readOffset := n.toNat }.buff = s.buff
        ∧ { s with readOffset := n.toNat }.encoding = s.encoding)
    ∧ ({ s with writeOffset := n.toNat }.length = s.length
        ∧ { s with writeOffset := n.toNat }.readOffset = s.readOffset
        ∧ { s with writeOffset := n.toNat }.buff = s.buff
        ∧ { s with writeOffset := n.toNat }.encoding = s.encoding) := by
  have hr : setReadOffset s (JSNum.int n) =
      if 0 ≤ n ∧ n ≤ (s.length : Int)
      then EResult.ok () { s with readOffset := n.toNat }
      else EResult.err SBError.outOfBoundsCursor s := rfl
  have hw : setWriteOffset s (JSNum.int n) =
      if 0 ≤ n ∧ n ≤ (capacity s : Int)
      then EResult.ok () { s with writeOffset := n.toNat }
      else EResult.err SBError.outOfBoundsCursor s := rfl
  refine ⟨?_, ?_, ?_, ?_, ⟨rfl, rfl, rfl, rfl⟩, ⟨rfl, rfl, rfl, rfl⟩⟩
  · intro h
    rw [hr, if_pos h]
  · intro h
    rw [hr, if_neg h]
  · intro h
    rw [hw, if_pos h]
  · intro h
    rw [hw, if_neg h]

/-- Witness for C6: setting the read cursor of a two-byte store to 1. -/
theorem C6_cursor_assignment_witness :
    setReadOffset (fromBuffer [5, 6] Option.none) (JSNum.int 1) =
      .ok () { fromBuffer [5, 6] Option.none with readOffset := Int.toNat 1 } :=
  (C6_cursor_assignment (fromBuffer [5, 6] Option.none) 1).1 (by decide)

/-- Claim C7: with the arbitrary-precision integer type missing every
64-bit operation fails with the type-unsupported error; with the type
present but a platform byte-codec primitive missing the operation fails
with the method-unsupported error naming that primitive; the two error
kinds are distinct. -/
theorem C7_bigint_capability (p : Platform) (s : ByteStore) (v : Int)
    (o : JSNum) (off : Option JSNum) :
    (p.hasBigInt = false →
      readBigInt64LE p s = .err .unsupportedType s
      ∧ readBigInt64BE p s = .err .unsupportedType s
      ∧ readBigUInt64LE p s = .err .unsupportedType s
      ∧ readBigUInt64BE p s = .err .unsupportedType s
      ∧ writeBigInt64LE p v off s = .err .unsupportedType s
      ∧ writeBigInt64BE p v off s = .err .unsupportedType s
      ∧ writeBigUInt64LE p v off s = .err .unsupportedType s
      ∧ writeBigUInt64BE p v off s = .err .unsupportedType s
      ∧ insertBigInt64LE p v o s = .err .unsupportedType s
      ∧ insertBigInt64BE p v o s = .err .unsupportedType s
      ∧ insertBigUInt64LE p v o s = .err .unsupportedType s
      ∧ insertBigUInt64BE p v o s = .err .unsupportedType s)
    ∧ (p.hasBigInt = true →
      (p.hasMethod "readBigInt64LE" = false →
        readBigInt64LE p s = .err (.unsupportedMethod "readBigInt64LE") s)
      ∧ (p.hasMethod "readBigInt64BE" = false →
        readBigInt64BE p s = .err (.unsupportedMethod "readBigInt64BE") s)
      ∧ (p.hasMethod "readBigUInt64LE" = false →
        readBigUInt64LE p s = .err (.unsupportedMethod "readBigUInt64LE") s)
      ∧ (p.hasMethod "readBigUInt64BE" = false →
        readBigUInt64BE p s = .err (.unsupportedMethod "readBigUInt64BE") s)
      ∧ (p.hasMethod "writeBigInt64LE" = false →
        writeBigInt64LE p v off s = .err (.unsupportedMethod "writeBigInt64LE") s
        ∧ insertBigInt64LE p v o s = .err (.unsupportedMethod "writeBigInt64LE") s)
      ∧ (p.hasMethod "writeBigInt64BE" = false →
        writeBigInt64BE p v off s = .err (.unsupportedMethod "writeBigInt64BE") s
        ∧ insertBigInt64BE p v o s = .err (.unsupportedMethod "writeBigInt64BE") s)
      ∧ (p.hasMethod "writeBigUInt64LE" = false →
        writeBigUInt64LE p v off s = .err (.unsupportedMethod "writeBigUInt64LE") s
        ∧ insertBigUInt64LE p v o s = .err (.unsupportedMethod "writeBigUInt64LE") s)
      ∧ (p.hasMethod "writeBigUInt64BE" = false →
        writeBigUInt64BE p v off s = .err (.unsupportedMethod "writeBigUInt64BE") s
        ∧ insertBigUInt64BE p v o s = .err (.unsupportedMethod "writeBigUInt64BE") s))
    ∧ (∀ m : String, SBError.unsupportedType ≠ SBError.unsupportedMethod m) := by
  refine ⟨?_, ?_, fun m h => SBError.noConfusion h⟩
  · intro h
    have hfail : ∀ (α : Type) (m : String) (k : ByteStore → EResult α),
        bigIntOp p m k s = .err .unsupportedType s := by
      intro α m k
      simp [bigIntOp, bigIntAndBufferInt64Check, h]
    exact ⟨hfail _ _ _, hfail _ _ _, hfail _ _ _, hfail _ _ _, hfail _ _ _,
      hfail _ _ _, hfail _ _ _, hfail _ _ _, hfail _ _ _, hfail _ _ _,
      hfail _ _ _, hfail _ _ _⟩
  · intro h
    have hfail : ∀ (α : Type) (m : String) (k : ByteStore → EResult α),
        p.hasMethod m = false →
        bigIntOp p m k s = .err (.unsupportedMethod m) s := by
      intro α m k hm
      simp [bigIntOp, bigIntAndBufferInt64Check, h, hm]
    exact ⟨fun hm => hfail _ _ _ hm, fun hm => hfail _ _ _ hm,
      fun hm => hfail _ _ _ hm, fun hm => hfail _ _ _ hm,
      fun hm => ⟨hfail _ _ _ hm, hfail _ _ _ hm⟩,
      fun hm => ⟨hfail _ _ _ hm, hfail _ _ _ hm⟩,
      fun hm => ⟨hfail _ _ _ hm, hfail _ _ _ hm⟩,
      fun hm => ⟨hfail _ _ _ hm, hfail _ _ _ hm⟩⟩

/-- Witness for C7: a platform without the arbitrary-precision type fails a
64-bit read with the type-unsupported error. -/
theorem C7_bigint_capability_witness :
    readBigInt64LE ⟨false, fun _ => false⟩ (fromBuffer [] Option.none) =
      .err .unsupportedType (fromBuffer [] Option.none) :=
  ((C7_bigint_capability ⟨false, fun _ => false⟩ (fromBuffer [] Option.none)
    0 (JSNum.int 0) Option.none).1 rfl).1

/-- Claim C8: on every invalid input — an offset or length that is not a
finite non-negative integer, an unsupported encoding, insufficient
remaining data, or an out-of-range cursor assignment — the operation fails
synchronously with the matching error kind and the store carried by the
failure is exactly the store before the call: no partial mutation, no
truncation, no clamping. -/
theorem C8_validate_first (s : ByteStore) (c : NumCodec) (v : Int) (n : Int)
    (e : String) (data : List Nat) :
    (setReadOffset s JSNum.bad = .err .invalidArgument s)
    ∧ (setWriteOffset s JSNum.bad = .err .invalidArgument s)
    ∧ (¬(0 ≤ n ∧ n ≤ (s.length : Int)) →
        setReadOffset s (JSNum.int n) = .err .outOfBoundsCursor s)
    ∧ (¬(0 ≤ n ∧ n ≤ (capacity s : Int)) →
        setWriteOffset s (JSNum.int n) = .err .outOfBoundsCursor s)
    ∧ (remaining s < c.byteSize →
        readNumberValue c s = .err .outOfBoundsRead s)
    ∧ (writeNumberValue c v (some JSNum.bad) s = .err .invalidArgument s)
    ∧ (n < 0 → writeNumberValue c v (some (JSNum.int n)) s = .err .invalidArgument s)
    ∧ (insertNumberValue c v JSNum.bad s = .err .invalidArgument s)
    ∧ (n < 0 → insertNumberValue c v (JSNum.int n) s = .err .invalidArgument s)
    ∧ (readString s (some JSNum.bad) Option.none = .err .invalidArgument s)
    ∧ (n < 0 → readString s (some (JSNum.int n)) Option.none = .err .invalidArgument s)
    ∧ (checkEncoding e = .error .invalidArgument →
        readString s Option.none (some e) = .err .invalidArgument s
        ∧ readStringNT s (some e) = .err .invalidArgument s
        ∧ writeString s data StrArg2.none (some e) = .err .invalidArgument s
        ∧ writeString s data (StrArg2.enc e) Option.none = .err .invalidArgument s
        ∧ (0 ≤ n →
            writeString s data (StrArg2.off (JSNum.int n)) (some e) =
              .err .invalidArgument s))
    ∧ (writeBuffer s data (some JSNum.bad) = .err .invalidArgument s)
    ∧ (n < 0 → writeBuffer s data (some (JSNum.int n)) = .err .invalidArgument s)
    ∧ (insertBuffer s data JSNum.bad = .err .invalidArgument s)
    ∧ (n < 0 → insertBuffer s data (JSNum.int n) = .err .invalidArgument s)
    ∧ (insertString s data JSNum.bad Option.none = .err .invalidArgument s)
    ∧ (fromOptions ⟨Option.none, some JSNum.bad, Option.none⟩ = .error .invalidArgument)
    ∧ (n ≤ 0 →
        fromOptions ⟨Option.none, some (JSNum.int n), Option.none⟩ =
          .error .invalidArgument) := by
  have hoff : ∀ m : Int, m < 0 →
      checkOffsetValue (JSNum.int m) = .error .invalidArgument := by
    intro m hm
    show (if m < 0 then Except.error SBError.invalidArgument
          else Except.ok m.toNat) = Except.error SBError.invalidArgument
    rw [if_pos hm]
  have hlen : ∀ m : Int, m < 0 →
      checkLengthValue (JSNum.int m) = .error .invalidArgument := by
    intro m hm
    show (if m < 0 then Except.error SBError.invalidArgument
          else Except.ok m.toNat) = Except.error SBError.invalidArgument
    rw [if_pos hm]
  have hrsr : setReadOffset s (JSNum.int n) =
      if 0 ≤ n ∧ n ≤ (s.length : Int)
      then EResult.ok () { s with readOffset := n.toNat }
      else EResult.err SBError.outOfBoundsCursor s := rfl
  have hwsr : setWriteOffset s (JSNum.int n) =
      if 0 ≤ n ∧ n ≤ (capacity s : Int)
      then EResult.ok () { s with writeOffset := n.toNat }
      else EResult.err SBError.outOfBoundsCursor s := rfl
  refine ⟨rfl, rfl, ?_, ?_, ?_, rfl, ?_, rfl, ?_, rfl, ?_, ?_, rfl, ?_, rfl,
    ?_, rfl, rfl, ?_⟩
  · intro h
    rw [hrsr, if_neg h]
  · intro h
    rw [hwsr, if_neg h]
  · intro h
    unfold readNumberValue
    rw [if_pos h]
  · intro h
    simp [writeNumberValue, hoff n h]
  · intro h
    simp [insertNumberValue, hoff n h]
  · intro h
    simp [readString, resolveEncoding, hlen n h]
  · intro h
    refine ⟨?_, ?_, ?_, ?_, ?_⟩
    · simp [readString, resolveEncoding, h]
    · simp [readStringNT, resolveEncoding, h]
    · simp [writeString, resolveEncoding, h]
    · simp [writeString, h]
    · intro hn
      have hok : checkOffsetValue (JSNum.int n) = .ok n.toNat := by
        show (if n < 0 then Except.error SBError.invalidArgument
              else Except.ok n.toNat) = Except.ok n.toNat
        rw [if_neg (by omega)]
      simp [writeString, resolveEncoding, hok, h]
  · intro h
    simp [writeBuffer, hoff n h]
  · intro h
    simp [insertBuffer, hoff n h]
  · intro h
    have : fromOptions ⟨Option.none, some (JSNum.int n), Option.none⟩ =
        (if n ≤ 0 then Except.error SBError.invalidArgument
         else Except.ok (fromSize n.toNat (some Encoding.utf8))) := rfl
    rw [this, if_pos h]

/-- Witness for C8: assigning a negative read cursor fails with the
cursor error and hands back the untouched store. -/
theorem C8_validate_first_witness :
    setReadOffset (fromBuffer [1] Option.none) (JSNum.int (-1)) =
      .err .outOfBoundsCursor (fromBuffer [1] Option.none) :=
  (C8_validate_first (fromBuffer [1] Option.none) uint32BECodec 0 (-1)
    "invalid" []).2.2.1 (by decide)

/-! ### Absolute-offset write behaviour -/

/-- The explicit-offset write core: both cursors untouched, the data at the
absolute offset, length extended only as far as the written range demands,
and the store still well formed afterwards. -/
theorem writeAtCore_spec (s : ByteStore) (o : Nat) (data : List Nat)
    (hwf : s.length ≤ capacity s) :
    (writeAtCore s o data).readOffset = s.readOffset
    ∧ (writeAtCore s o data).writeOffset = s.writeOffset
    ∧ (writeAtCore s o data).length = max s.length (o + data.length)
    ∧ (writeAtCore s o data).encoding = s.encoding
    ∧ readBytesAt (writeAtCore s o data).buff o data.length = data
    ∧ (writeAtCore s o data).length ≤ capacity (writeAtCore s o data) := by
  have hcap1 : o + data.length ≤
      (ensureCapacity s (o + data.length)).buff.length :=
    capacity_ensureCapacity_ge hwf
  have hcap2 : capacity s ≤ capacity (ensureCapacity s (o + data.length)) :=
    capacity_ensureCapacity_ge_old hwf
  set s1 := ensureCapacity s (o + data.length) with hs1
  have hlen1 : s1.length = s.length := ensureCapacity_length _ _
  have hwo1 : s1.writeOffset = s.writeOffset := ensureCapacity_writeOffset _ _
  have hro1 : s1.readOffset = s.readOffset := ensureCapacity_readOffset _ _
  have henc1 : s1.encoding = s.encoding := ensureCapacity_encoding _ _
  have hsetlen : (setBytes s1.buff o data).length = s1.buff.length :=
    length_setBytes (by omega)
  refine ⟨hro1, hwo1, ?_, henc1, ?_, ?_⟩
  · show max s1.length (o + data.length) = max s.length (o + data.length)
    rw [hlen1]
  · show readBytesAt (setBytes s1.buff o data) o data.length = data
    exact readBytesAt_setBytes_self (by omega)
  · show max s1.length (o + data.length) ≤ capacity
      { s1 with buff := setBytes s1.buff o data
              , length := max s1.length (o + data.length) }
    simp only [capacity]
    rw [hsetlen, hlen1]
    simp only [capacity] at hcap2 hwf
    omega

/-- Claim C9: a write given an explicit offset stores the encoded value at
that absolute position, moves neither cursor, and extends length only when
the written range passes it; an offset-less write that follows lands at
the untouched pre-existing write cursor exactly as if no cursor had
moved. -/
theorem C9_absolute_write (c : NumCodec) (v : Int) (s : ByteStore) (o : Nat)
    (hc : c ∈ codecList) (hwf : s.length ≤ capacity s) :
    writeNumberValue c v (some (JSNum.int o)) s =
      .ok () (writeAtCore s o (c.enc v))
    ∧ (writeAtCore s o (c.enc v)).writeOffset = s.writeOffset
    ∧ (writeAtCore s o (c.enc v)).readOffset = s.readOffset
    ∧ (writeAtCore s o (c.enc v)).length = max s.length (o + c.byteSize)
    ∧ readBytesAt (writeAtCore s o (c.enc v)).buff o c.byteSize = c.enc v
    ∧ (∀ d2 : List Nat,
        readBytesAt (writeCore (writeAtCore s o (c.enc v)) d2).buff
          s.writeOffset d2.length = d2
        ∧ (writeCore (writeAtCore s o (c.enc v)) d2).writeOffset =
            s.writeOffset + d2.length) := by
  have hk := codec_enc_length hc v
  have hspec := writeAtCore_spec s o (c.enc v) hwf
  refine ⟨?_, hspec.2.1, hspec.1, ?_, ?_, ?_⟩
  · simp [writeNumberValue, checkOffsetValue_nat]
  · rw [hspec.2.2.1, hk]
  · rw [← hk]
    exact hspec.2.2.2.2.1
  · intro d2
    have hw2 := writeCore_spec (writeAtCore s o (c.enc v)) d2 hspec.2.2.2.2.2
    constructor
    · have := hw2.2.2.2.2.1
      rw [hspec.2.1] at this
      exact this
    · rw [hw2.2.1, hspec.2.1]

/-- Witness for C9: a 16-bit write at absolute offset 1 of a two-byte
store leaves the write cursor at 0. -/
theorem C9_absolute_write_witness :
    (writeAtCore (fromBuffer [9, 9] Option.none) 1 (uint16LECodec.enc 4660)).writeOffset =
      (fromBuffer [9, 9] Option.none).writeOffset :=
  (C9_absolute_write uint16LECodec 4660 (fromBuffer [9, 9] Option.none) 1
    (by simp [codecList]) (by decide)).2.1

/-- Claim C10: the default construction yields capacity exactly 4096 with
utf8 encoding, construction from options carrying only an encoding yields
capacity 4096 with that encoding, and every construction starts length and
both cursors at 0 except that adopting an existing byte array sets length
to that array's size. -/
theorem C10_construction (data : List Nat) (en : Option Encoding) (sz : Nat)
    (e : Encoding) (name : String) (henc : checkEncoding name = .ok e) :
    capacity mkDefault = 4096
    ∧ mkDefault.encoding = Encoding.utf8
    ∧ mkDefault.length = 0
    ∧ mkDefault.readOffset = 0
    ∧ mkDefault.writeOffset = 0
    ∧ fromOptions ⟨some name, Option.none, Option.none⟩ =
        .ok (fromSize 4096 (some e))
    ∧ fromOptions ⟨Option.none, Option.none, Option.none⟩ =
        .ok (fromSize 4096 (some Encoding.utf8))
    ∧ capacity (fromSize sz en) = sz
    ∧ (fromSize sz en).length = 0
    ∧ (fromSize sz en).readOffset = 0
    ∧ (fromSize sz en).writeOffset = 0
    ∧ (fromSize sz Option.none).encoding = Encoding.utf8
    ∧ (fromBuffer data en).length = data.length
    ∧ (fromBuffer data en).readOffset = 0
    ∧ (fromBuffer data en).writeOffset = 0
    ∧ capacity (fromBuffer data en) = data.length := by
  refine ⟨?_, rfl, rfl, rfl, rfl, ?_, rfl, ?_, rfl, rfl, rfl, rfl, rfl, rfl,
    rfl, rfl⟩
  · show (List.replicate DEFAULT_SMARTBUFFER_SIZE 0).length = 4096
    rw [List.length_replicate]
    rfl
  · have h1 : fromOptions ⟨some name, Option.none, Option.none⟩ =
        Except.bind (checkEncoding name)
          (fun enc => Except.ok (fromSize DEFAULT_SMARTBUFFER_SIZE (some enc))) := rfl
    rw [h1, henc]
    rfl
  · simp [fromSize, capacity]

/-- Witness for C10: from-options with only the ascii encoding name. -/
theorem C10_construction_witness :
    fromOptions ⟨some "ascii", Option.none, Option.none⟩ =
      .ok (fromSize 4096 (some Encoding.ascii)) :=
  (C10_construction [] Option.none 0 Encoding.ascii "ascii" rfl).2.2.2.2.2.1

end SmartBuffer
